import Mathlib

/-!
Verification of the repo-to-docx pipeline: a shallow embedding of
`code_convert.py` (repository aggregator) and `md_to_word.py` (Markdown
renderer with its code-block highlighting pipeline), together with theorems
settling the specification claims about them.

Conventions of the embedding:
  - the filesystem is a finite tree of named directories and files;
  - Python strings are Lean `String`; string primitives used by the source
    (`rstrip`, `lstrip`, `strip`, slicing, `startswith`, `str.lower`,
    `os.path.splitext`) are re-implemented over `String.data` so that every
    definition is executable by the kernel;
  - the docx sink is modelled as a list of structural events; the pygments
    lexer machinery is modelled as an adapter record of fallible functions,
    with Python exceptions as `Except Unit`.
-/

/-- A filesystem entry: a file with a name and (lossily decoded) text
content, or a directory with a name and children. Models the tree that
`os.walk` traverses in `code_convert.py`. -/
inductive Entry where
  | file (name content : String) : Entry
  | dir (name : String) (children : List Entry) : Entry

/-- The two exclusion lists that `create_markdown_from_repo` receives
(`excluded_extensions`, `excluded_directories` in `code_convert.py`). -/
structure Rules where
  excluded_extensions : List String
  excluded_directories : List String
deriving DecidableEq

/-- One aggregated file, as produced for each included file during the walk
(`code_convert.py` lines 73-92). `relativePath` is
`os.path.relpath(file_path, repo_path)`; `fileName` and `extension` record
the basename and `os.path.splitext` suffix that the filters inspected. -/
structure FileRecord where
  relativePath : String
  fileName : String
  extension : String
  languageHint : String
  content : String
deriving DecidableEq

/-- ASCII lowercasing of a string, modelling Python `str.lower()` on the
extension strings that occur here. -/
def lowerStr (s : String) : String := String.mk (s.data.map Char.toLower)

/-- Index of the last dot of a character list, if any. Helper for
`os.path.splitext`. -/
def lastDotIndex : List Char → Option Nat
  | [] => none
  | c :: cs =>
    match lastDotIndex cs with
    | some i => some (i + 1)
    | none => if c == '.' then some 0 else none

/-- The extension component `os.path.splitext(file_name)[1]`: everything
from the last dot on, except that a name whose characters before the last
dot are all dots (such as `.env`) has no extension. -/
def splitext_ext (file_name : String) : String :=
  let cs := file_name.data
  match lastDotIndex cs with
  | none => ""
  | some i =>
    if (cs.take i).any (fun c => !(c == '.')) then String.mk (cs.drop i) else ""

/-- The fixed extension-to-language table of `_get_syntax_for_extension` in
`code_convert.py`: the queried extension is lowercased and looked up, with
`""` for unknown extensions. -/
def get_syntax_for_extension (extension : String) : String :=
  let e := lowerStr extension
  if e = ".py" then "python"
  else if e = ".js" then "javascript"
  else if e = ".cjs" then "javascript"
  else if e = ".ts" then "typescript"
  else if e = ".tsx" then "tsx"
  else if e = ".jsx" then "jsx"
  else if e = ".java" then "java"
  else if e = ".c" then "c"
  else if e = ".cpp" then "cpp"
  else if e = ".sh" then "bash"
  else if e = ".html" then "html"
  else if e = ".css" then "css"
  else if e = ".json" then "json"
  else if e = ".yaml" then "yaml"
  else if e = ".yml" then "yaml"
  else if e = ".md" then "markdown"
  else ""

/-- Relative-path concatenation: `os.path.relpath` of a file reached from
the walk root through the directory components accumulated in `rel`. -/
def joinRel (rel n : String) : String := if rel = "" then n else rel ++ "/" ++ n

/-- The per-file filter of the walk body (`code_convert.py` lines 73-88):
skip names equal to `.env`, skip extensions in `excluded_extensions`
(exact list membership, as in Python `extension in excluded_extensions`),
otherwise build the record for the file. -/
def includeFile (rules : Rules) (rel file_name content : String) : Option FileRecord :=
  if file_name = ".env" then none
  else
    let extension := splitext_ext file_name
    if rules.excluded_extensions.contains extension then none
    else some
      { relativePath := joinRel rel file_name
        fileName := file_name
        extension := extension
        languageHint := get_syntax_for_extension extension
        content := content }

/-- The records contributed by the plain files of one directory listing, in
listing order (the `for file_name in files` loop). -/
def fileRecordsOf (rules : Rules) (rel : String) (children : List Entry) : List FileRecord :=
  children.filterMap fun e =>
    match e with
    | Entry.file n c => includeFile rules rel n c
    | Entry.dir _ _ => none

/-- Depth-first descent into the subdirectories of a listing, in listing
order. A subdirectory whose name is in `excluded_directories` is removed
before descent (the `dirs.remove(d)` loop of `code_convert.py` lines
69-71), so it contributes nothing; otherwise `os.walk` yields its files
first and then recurses into its own subdirectories. -/
def walkSubdirs (rules : Rules) (rel : String) (l : List Entry) : List FileRecord :=
  match l with
  | [] => []
  | Entry.file _ _ :: es => walkSubdirs rules rel es
  | Entry.dir d cs :: es =>
    (if rules.excluded_directories.contains d then []
     else fileRecordsOf rules (joinRel rel d) cs ++ walkSubdirs rules (joinRel rel d) cs)
    ++ walkSubdirs rules rel es
termination_by sizeOf l
decreasing_by all_goals (simp_wf <;> omega)

/-- The full `os.walk(repo_path)` record stream for a root directory with
the given children: the root listing's files, then its subdirectory
subtrees depth-first. -/
def walkDir (rules : Rules) (rel : String) (children : List Entry) : List FileRecord :=
  fileRecordsOf rules rel children ++ walkSubdirs rules rel children

/-- Python `"\n".join`: intersperse a newline between the elements. -/
def joinNL : List String → String
  | [] => ""
  | [s] => s
  | s :: rest => s ++ "\n" ++ joinNL rest

/-- Concatenation of a list of strings with no separator. -/
def concatS : List String → String
  | [] => ""
  | s :: rest => s ++ concatS rest

/-- The four entries that `create_markdown_from_repo` appends to
`markdown_lines` for one included file (`code_convert.py` lines 89-92). -/
def markdownLinesOf (r : FileRecord) : List String :=
  ["## " ++ r.relativePath ++ "\n", "```" ++ r.languageHint, r.content, "```\n"]

/-- `create_markdown_from_repo` for a root directory with the given
children: the per-file line groups accumulated in walk order, joined by
`"\n".join(markdown_lines)`. -/
def create_markdown_from_repo (rules : Rules) (children : List Entry) : String :=
  joinNL ((walkDir rules "" children).flatMap markdownLinesOf)

/-- What the filesystem holds at the path the user entered as target:
nothing, a plain file, or a directory with its children. -/
inductive PathTarget where
  | missing : PathTarget
  | plainFile (content : String) : PathTarget
  | directory (name : String) (children : List Entry) : PathTarget

/-- `os.path.isdir(target)`: true exactly for an existing directory. -/
def os_path_isdir : PathTarget → Bool
  | PathTarget.directory _ _ => true
  | _ => false

/-- Observable outcome of one conversion run of `main` in
`code_convert.py`: the output files written (name and text) and whether the
run stopped at the `Invalid path.` pre-flight check. -/
structure MainOutcome where
  outputFiles : List (String × String)
  invalidPathAbort : Bool
deriving DecidableEq

/-- The conversion run built on `create_markdown_from_repo`
(`code_convert.py` lines 110-135, prompts elided): if
`os.path.isdir(target)` fails, print `Invalid path.` and return before any
traversal and before any output file is opened; otherwise walk the tree and
write the generated Markdown to the output file. -/
def main_run (target : PathTarget) (rules : Rules) (outName : String) : MainOutcome :=
  if os_path_isdir target = false then
    { outputFiles := [], invalidPathAbort := true }
  else
    match target with
    | PathTarget.directory _ children =>
      { outputFiles := [(outName, create_markdown_from_repo rules children)]
        invalidPathAbort := false }
    | _ => { outputFiles := [], invalidPathAbort := true }

/-- Python `line.rstrip("\n")` on a character list: drop trailing newline
characters. -/
def rstripChars (cs : List Char) : List Char :=
  (cs.reverse.dropWhile (fun c => c == '\n')).reverse

/-- Python `line.rstrip("\n")`. -/
def rstripNL (s : String) : String := String.mk (rstripChars s.data)

/-- Python `s.startswith(p)`: `p` is a prefix of `s`. -/
def startswith (p s : String) : Bool := List.isPrefixOf p.data s.data

/-- Python slicing `s[n:]`. -/
def dropStr (n : Nat) (s : String) : String := String.mk (s.data.drop n)

/-- Python `s.strip()`: trim whitespace from both ends. -/
def trimStr (s : String) : String :=
  String.mk (((s.data.dropWhile Char.isWhitespace).reverse.dropWhile Char.isWhitespace).reverse)

/-- Python `s.lstrip("#")`: drop leading hash characters. -/
def lstripHash (s : String) : String := String.mk (s.data.dropWhile (fun c => c == '#'))

/-- The `in_code_block` / `code_language` / `code_buffer` loop variables of
`convert_markdown_to_docx` (`md_to_word.py` lines 39-41). -/
structure RenderState where
  in_code_block : Bool
  code_language : String
  code_buffer : List String
deriving DecidableEq

/-- A structural event sent to the document sink: `doc.add_heading`,
`doc.add_paragraph`, or one `_add_code_paragraph` call carrying the
captured language hint and the buffered lines joined by newlines. -/
inductive DocEvent where
  | heading (text : String) (level : Nat) : DocEvent
  | paragraph (text : String) : DocEvent
  | codeBlock (language text : String) : DocEvent
deriving DecidableEq

/-- The loop body of `convert_markdown_to_docx` (`md_to_word.py` lines
42-67) for one input line: the `if`/`elif` chain on
`line_stripped.startswith("```")` and `in_code_block`, then the
in-code-block buffering, heading, and paragraph branches. Returns the
updated state and the events emitted for this line. -/
def processLine (st : RenderState) (line : String) : RenderState × List DocEvent :=
  let line_stripped := rstripNL line
  if startswith "```" line_stripped && !st.in_code_block then
    ({ in_code_block := true
       code_language := trimStr (dropStr 3 line_stripped)
       code_buffer := [] }, [])
  else if startswith "```" line_stripped && st.in_code_block then
    ({ in_code_block := false, code_language := "", code_buffer := [] },
     [DocEvent.codeBlock st.code_language (joinNL st.code_buffer)])
  else if st.in_code_block then
    ({ st with code_buffer := st.code_buffer ++ [line_stripped] }, [])
  else if startswith "##" line_stripped then
    (st, [DocEvent.heading (trimStr (lstripHash line_stripped)) 2])
  else
    (st, [DocEvent.paragraph line_stripped])

/-- Initial render state (`md_to_word.py` lines 39-41). -/
def initState : RenderState :=
  { in_code_block := false, code_language := "", code_buffer := [] }

/-- Run the renderer loop over a list of input lines from a start state,
returning the final state and all emitted events in order. -/
def runLines (st : RenderState) : List String → RenderState × List DocEvent
  | [] => (st, [])
  | l :: ls =>
    let r1 := processLine st l
    let r2 := runLines r1.1 ls
    (r2.1, r1.2 ++ r2.2)

/-- `convert_markdown_to_docx` as a function from the input lines to the
sink events. The loop runs to the end of input and then the document is
saved: there is no flush after the loop, so whatever `code_buffer` holds at
end of input is not emitted. File reading and `doc.save` are elided. -/
def convert_markdown_to_docx (lines : List String) : List DocEvent :=
  (runLines initState lines).2

/-- A pygments token category, abstracting the `Token.Keyword` /
`Token.String` / `Token.Comment` membership tests of
`_highlight_code_paragraph`; every other token type is `other`. -/
inductive TokenCat where
  | keyword : TokenCat
  | stringTok : TokenCat
  | comment : TokenCat
  | other : TokenCat
deriving DecidableEq

/-- One `(token_type, token_value)` pair yielded by `lexer.get_tokens`. -/
structure Token where
  cat : TokenCat
  text : String
deriving DecidableEq

/-- A resolved lexer: its `get_tokens` method. -/
structure Lexer where
  get_tokens : String → List Token

/-- One styled run added by `paragraph.add_run(token_value)` plus the
optional font color set from the token category. -/
structure StyledRun where
  text : String
  colorRGB : Option (Nat × Nat × Nat)
deriving DecidableEq

/-- The run built for one token by the loop body of
`_highlight_code_paragraph` (`md_to_word.py` lines 83-90): the run text is
the token value, and the color is the fixed RGB for keyword, string and
comment categories, default otherwise. -/
def styleToken (t : Token) : StyledRun :=
  { text := t.text
    colorRGB :=
      match t.cat with
      | TokenCat.keyword => some (127, 0, 127)
      | TokenCat.stringTok => some (42, 133, 0)
      | TokenCat.comment => some (100, 100, 100)
      | TokenCat.other => none }

/-- The external pygments resolution functions used by
`_highlight_code_paragraph`: `get_lexer_by_name` and `guess_lexer`, each of
which either returns a lexer or raises (modelled as `Except.error ()`). -/
structure LexerEnv where
  get_lexer_by_name : String → Except Unit Lexer
  guess_lexer : String → Except Unit Lexer

/-- Lexer resolution of `_highlight_code_paragraph` (`md_to_word.py` lines
77-80): try `get_lexer_by_name(code_language)` when the hint is non-empty,
else `guess_lexer(code_text)`; the bare `except` catches a failure of that
first attempt and retries with `guess_lexer(code_text)`. A failure of this
second call is not caught. -/
def resolveLexer (env : LexerEnv) (code_text code_language : String) : Except Unit Lexer :=
  match
    (if code_language = "" then env.guess_lexer code_text
     else env.get_lexer_by_name code_language) with
  | Except.ok l => Except.ok l
  | Except.error _ => env.guess_lexer code_text

/-- `_highlight_code_paragraph` as a function from the adapter environment,
block text and language hint to either the styled runs added to the code
paragraph (token order preserved) or a propagated resolution failure. -/
def highlight_code_paragraph (env : LexerEnv) (code_text code_language : String) :
    Except Unit (List StyledRun) :=
  match resolveLexer env code_text code_language with
  | Except.error e => Except.error e
  | Except.ok lexer => Except.ok ((lexer.get_tokens code_text).map styleToken)

/-- `_add_code_paragraph`: join the buffered lines and delegate to
`_highlight_code_paragraph`. -/
def add_code_paragraph (env : LexerEnv) (code_lines : List String) (code_language : String) :
    Except Unit (List StyledRun) :=
  highlight_code_paragraph env (joinNL code_lines) code_language

/-- Successful inclusion pins down the filter-relevant fields of the
record: the name is the basename, it is not `.env`, the extension is the
`splitext` suffix, and that extension is not in the exclusion list. -/
theorem includeFile_some {rules : Rules} {rel n c : String} {r : FileRecord}
    (h : includeFile rules rel n c = some r) :
    r.fileName = n ∧ n ≠ ".env" ∧ r.extension = splitext_ext n ∧
      rules.excluded_extensions.contains r.extension = false := by
  unfold includeFile at h
  split_ifs at h with h1
  simp at h
  obtain ⟨hni, heq⟩ := h
  subst heq
  refine ⟨rfl, h1, rfl, ?_⟩
  simpa using hni

/-- Every record contributed by the files of one listing comes from a
successful `includeFile`. -/
theorem fileRecordsOf_sound {rules : Rules} {rel : String} {l : List Entry} {r : FileRecord}
    (h : r ∈ fileRecordsOf rules rel l) :
    ∃ n c, includeFile rules rel n c = some r := by
  unfold fileRecordsOf at h
  rcases List.mem_filterMap.mp h with ⟨e, _, he⟩
  cases e with
  | file n c => exact ⟨n, c, he⟩
  | dir _ _ => simp at he

/-- Every record emitted anywhere in the depth-first descent comes from a
successful `includeFile` at some relative path. -/
theorem walkSubdirs_sound :
    ∀ (fuel : Nat) (l : List Entry), sizeOf l ≤ fuel →
      ∀ (rules : Rules) (rel : String) (r : FileRecord), r ∈ walkSubdirs rules rel l →
        ∃ rel' n c, includeFile rules rel' n c = some r := by
  intro fuel
  induction fuel with
  | zero =>
    intro l hl rules rel r hr
    cases l with
    | nil => simp [walkSubdirs] at hr
    | cons e es =>
      simp only [List.cons.sizeOf_spec] at hl
      omega
  | succ fuel ih =>
    intro l hl rules rel r hr
    cases l with
    | nil => simp [walkSubdirs] at hr
    | cons e es =>
      cases e with
      | file n c =>
        rw [walkSubdirs] at hr
        have hes : sizeOf es ≤ fuel := by
          simp only [List.cons.sizeOf_spec, Entry.file.sizeOf_spec] at hl
          omega
        exact ih es hes rules rel r hr
      | dir d cs =>
        rw [walkSubdirs] at hr
        have hes : sizeOf es ≤ fuel := by
          simp only [List.cons.sizeOf_spec, Entry.dir.sizeOf_spec] at hl
          omega
        have hcs : sizeOf cs ≤ fuel := by
          simp only [List.cons.sizeOf_spec, Entry.dir.sizeOf_spec] at hl
          omega
        rcases List.mem_append.mp hr with hleft | hright
        · split_ifs at hleft with hd
          · simp at hleft
          · rcases List.mem_append.mp hleft with hf | hw
            · rcases fileRecordsOf_sound hf with ⟨n, c, hn⟩
              exact ⟨joinRel rel d, n, c, hn⟩
            · exact ih cs hcs rules (joinRel rel d) r hw
        · exact ih es hes rules rel r hright

/-- Every record emitted by the walk comes from a successful `includeFile`
at some relative path. -/
theorem walkDir_sound {rules : Rules} {rel : String} {children : List Entry} {r : FileRecord}
    (h : r ∈ walkDir rules rel children) :
    ∃ rel' n c, includeFile rules rel' n c = some r := by
  unfold walkDir at h
  rcases List.mem_append.mp h with hf | hw
  · rcases fileRecordsOf_sound hf with ⟨n, c, hn⟩
    exact ⟨rel, n, c, hn⟩
  · exact walkSubdirs_sound (sizeOf children) children (Nat.le_refl _) rules rel r hw

/-- C1: for every target path that is not an existing directory, the
conversion run of `main` in `code_convert.py` stops at the
`os.path.isdir` pre-flight check (the `Invalid path.` / `NotADirectory`
outcome) before any traversal, and writes no output file. -/
theorem c1_not_a_directory (target : PathTarget) (rules : Rules) (outName : String)
    (h : os_path_isdir target = false) :
    main_run target rules outName = { outputFiles := [], invalidPathAbort := true } := by
  unfold main_run
  rw [h]
  simp

/-- Witness for C1 at a concrete input: the target is a plain file, so the
run aborts with no output file written. -/
theorem c1_witness :
    main_run (PathTarget.plainFile "not a dir") { excluded_extensions := [], excluded_directories := [] } "output.md" =
      { outputFiles := [], invalidPathAbort := true } :=
  c1_not_a_directory (PathTarget.plainFile "not a dir") _ "output.md" rfl

/-- C3: for every directory tree and every configuration of the exclusion
rules, no file whose name is exactly `.env` ever produces a `FileRecord`
(and hence never appears in the generated Markdown, which is rendered from
these records): the `if file_name == ".env": continue` guard runs before
any other filtering. -/
theorem c3_env_never_emitted (rules : Rules) (children : List Entry) (r : FileRecord)
    (h : r ∈ walkDir rules "" children) : r.fileName ≠ ".env" := by
  rcases walkDir_sound h with ⟨rel', n, c, hn⟩
  rcases includeFile_some hn with ⟨hname, hne, -, -⟩
  rw [hname]
  exact hne

/-- Witness for C3 at a concrete input: a tree holding `secret/.env` plus a
regular file, with empty rules; the one emitted record is not named
`.env`. -/
theorem c3_witness :
    ({ relativePath := "a.py", fileName := "a.py", extension := ".py",
       languageHint := "python", content := "print(1)" } : FileRecord).fileName ≠ ".env" :=
  c3_env_never_emitted { excluded_extensions := [], excluded_directories := [] }
    [Entry.dir "secret" [Entry.file ".env" "SECRET=1"], Entry.file "a.py" "print(1)"]
    _ (by simp only [walkDir, walkSubdirs]; decide)

/-- C2 counterexample: extension exclusion in `code_convert.py` line 78 is
the exact Python list membership `extension in excluded_extensions`, which
is case-sensitive. With `excludedExtensions = [".py"]`, a file named
`a.PY` is NOT skipped: the walk emits a record for it (the claim states it
would be excluded case-insensitively). -/
theorem c2_counterexample :
    walkDir { excluded_extensions := [".py"], excluded_directories := [] } ""
        [Entry.file "a.PY" "x = 1"] =
      [{ relativePath := "a.PY", fileName := "a.PY", extension := ".PY",
         languageHint := "python", content := "x = 1" }] := by
  simp only [walkDir, walkSubdirs]
  decide

/-- C2 as amended: a file is skipped whenever its extension is in
`excludedExtensions` by exact, case-sensitive string comparison (so `.PY`
is not excluded when `.py` is listed): no emitted record carries an
extension that is an entry of the exclusion list. -/
theorem c2_exact_extension_match (rules : Rules) (children : List Entry) (r : FileRecord)
    (h : r ∈ walkDir rules "" children) :
    rules.excluded_extensions.contains r.extension = false := by
  rcases walkDir_sound h with ⟨rel', n, c, hn⟩
  exact (includeFile_some hn).2.2.2

/-- Witness for the amended C2 at a concrete input: with `.py` excluded,
the emitted record for `b.md` has an extension outside the exclusion
list. -/
theorem c2_witness :
    ([".py"] : List String).contains ".md" = false :=
  c2_exact_extension_match { excluded_extensions := [".py"], excluded_directories := [] }
    [Entry.file "a.py" "print(1)", Entry.file "b.md" "hello"]
    { relativePath := "b.md", fileName := "b.md", extension := ".md",
      languageHint := "markdown", content := "hello" }
    (by simp only [walkDir, walkSubdirs]; decide)

/-- C4: if a subdirectory name is an entry of `excludedDirectories`, the
walk of a listing containing it produces exactly the records of the same
listing without it — the whole subtree (for every possible content `cs`,
hence also files whose own extensions are not excluded) is never visited or
emitted. -/
theorem c4_excluded_dir_pruned (rules : Rules) (rel : String) (pre es : List Entry)
    (d : String) (cs : List Entry)
    (h : rules.excluded_directories.contains d = true) :
    walkDir rules rel (pre ++ Entry.dir d cs :: es) = walkDir rules rel (pre ++ es) := by
  unfold walkDir
  have hfiles : fileRecordsOf rules rel (pre ++ Entry.dir d cs :: es) =
      fileRecordsOf rules rel (pre ++ es) := by
    unfold fileRecordsOf
    simp
  rw [hfiles]
  have hsub : ∀ pre' : List Entry,
      walkSubdirs rules rel (pre' ++ Entry.dir d cs :: es) =
        walkSubdirs rules rel (pre' ++ es) := by
    intro pre'
    induction pre' with
    | nil =>
      simp only [List.nil_append]
      rw [walkSubdirs, h]
      simp
    | cons e pre' ih =>
      cases e with
      | file n c =>
        simp only [List.cons_append]
        rw [walkSubdirs, walkSubdirs]
        exact ih
      | dir d' cs' =>
        simp only [List.cons_append]
        rw [walkSubdirs, walkSubdirs]
        rw [ih]
  rw [hsub pre]

/-- Witness for C4 at a concrete input: with `.git` excluded, a tree
holding `.git/config` (whose extension is not excluded) walks exactly like
the tree without the `.git` directory. -/
theorem c4_witness :
    walkDir { excluded_extensions := [], excluded_directories := [".git"] } ""
        (([] : List Entry) ++ Entry.dir ".git" [Entry.file "config" "[core]"] ::
          [Entry.file "a.py" "print(1)"]) =
      walkDir { excluded_extensions := [], excluded_directories := [".git"] } ""
        (([] : List Entry) ++ [Entry.file "a.py" "print(1)"]) :=
  c4_excluded_dir_pruned _ "" [] [Entry.file "a.py" "print(1)"] ".git"
    [Entry.file "config" "[core]"] (by decide)

/-- The byte sequence the spec prescribes per file record, spelled
`## <relativePath>`, blank line, fenced block tagged with the language
hint, the raw content (triple backticks inside it unescaped), closing
fence, blank separator. -/
def chunkOf (r : FileRecord) : String :=
  "## " ++ r.relativePath ++ "\n" ++ "\n" ++ "```" ++ r.languageHint ++ "\n" ++
    r.content ++ "\n" ++ "```\n" ++ "\n"

/-- Unfolding `joinNL` at a cons with a non-empty tail. -/
theorem joinNL_cons (x : String) (l : List String) (h : l ≠ []) :
    joinNL (x :: l) = x ++ "\n" ++ joinNL l := by
  cases l with
  | nil => exact absurd rfl h
  | cons y ys => rfl

/-- The flattened Markdown line list of a non-empty record list is
non-empty. -/
theorem flatMap_markdownLines_ne_nil (rs : List FileRecord) (h : rs ≠ []) :
    rs.flatMap markdownLinesOf ≠ [] := by
  cases rs with
  | nil => exact absurd rfl h
  | cons r rs => simp [markdownLinesOf]

/-- Unfolding `concatS` at a cons. -/
theorem concatS_cons (a : String) (l : List String) : concatS (a :: l) = a ++ concatS l := rfl

/-- The joined Markdown of a non-empty record list, with one extra newline
appended, is exactly the concatenation of the per-record chunks. -/
theorem joinNL_chunks (rs : List FileRecord) (h : rs ≠ []) :
    joinNL (rs.flatMap markdownLinesOf) ++ "\n" = concatS (rs.map chunkOf) := by
  induction rs with
  | nil => exact absurd rfl h
  | cons r rs ih =>
    cases rs with
    | nil =>
      simp only [List.flatMap_cons, List.flatMap_nil, List.append_nil, List.map_cons,
        List.map_nil, markdownLinesOf]
      simp only [joinNL, concatS, chunkOf, String.append_empty, String.append_assoc]
    | cons r' rs' =>
      have hne : (r' :: rs').flatMap markdownLinesOf ≠ [] :=
        flatMap_markdownLines_ne_nil _ (by simp)
      have ihne := ih (by simp)
      rw [List.flatMap_cons]
      rw [show markdownLinesOf r ++ ((r' :: rs').flatMap markdownLinesOf) =
        ("## " ++ r.relativePath ++ "\n") :: ("```" ++ r.languageHint) :: r.content ::
          "```\n" :: ((r' :: rs').flatMap markdownLinesOf) from rfl]
      rw [joinNL_cons _ _ (by simp), joinNL_cons _ _ (by simp), joinNL_cons _ _ (by simp),
        joinNL_cons _ _ hne]
      rw [List.map_cons, concatS_cons, ← ihne]
      simp only [chunkOf, String.append_assoc]

/-- C5 counterexample: for a repository with the single file `a.py`
containing `print(1)`, the generated Markdown ends after the closing fence
with one newline, not the claimed two — so the output (which is shorter
than the claimed per-record byte sequence) cannot contain that sequence
for the last file. `"\n".join` inserts separators only between entries,
so the final `\x60\x60\x60\n` line is not followed by a blank
separator. -/
theorem c5_counterexample :
    create_markdown_from_repo { excluded_extensions := [], excluded_directories := [] }
        [Entry.file "a.py" "print(1)"] =
      "## a.py\n\n```python\nprint(1)\n```\n" ∧
    ("## a.py\n\n```python\nprint(1)\n```\n").length <
      (chunkOf { relativePath := "a.py", fileName := "a.py", extension := ".py",
                 languageHint := "python", content := "print(1)" }).length := by
  constructor
  · simp only [create_markdown_from_repo, walkDir, walkSubdirs]
    decide
  · decide

/-- C5 as amended: every included file contributes exactly the byte
sequence `## <relativePath>`, blank line, fence tagged with the language
hint, the raw content with embedded triple backticks unescaped, closing
fence, blank separator — except that the final separator newline after the
last file is missing: the whole output equals the chunk concatenation with
exactly one trailing newline removed. -/
theorem c5_markdown_format (rules : Rules) (children : List Entry)
    (h : walkDir rules "" children ≠ []) :
    create_markdown_from_repo rules children ++ "\n" =
      concatS ((walkDir rules "" children).map chunkOf) := by
  unfold create_markdown_from_repo
  exact joinNL_chunks _ h

/-- Witness for the amended C5 at a concrete input with two files: the
output plus one newline is the two chunks concatenated (so the non-last
file carries the full sequence with its blank separator). -/
theorem c5_witness :
    create_markdown_from_repo { excluded_extensions := [], excluded_directories := [] }
        [Entry.file "a.py" "print(1)", Entry.file "b.md" "hi"] ++ "\n" =
      concatS ((walkDir { excluded_extensions := [], excluded_directories := [] } ""
        [Entry.file "a.py" "print(1)", Entry.file "b.md" "hi"]).map chunkOf) :=
  c5_markdown_format { excluded_extensions := [], excluded_directories := [] }
    [Entry.file "a.py" "print(1)", Entry.file "b.md" "hi"]
    (by simp only [walkDir, walkSubdirs]; decide)

/-- C9: the fence transitions of the renderer state machine. In the
`Normal` state (`in_code_block = false`) the machine enters `InCodeBlock`
exactly when the newline-stripped line has the three-backtick prefix,
capturing the trimmed remainder of the line (`line_stripped[3:].strip()`)
as the language hint with a fresh empty buffer and no output; on any other
line it stays in `Normal`. In the `InCodeBlock` state a line with the
three-backtick prefix flushes the buffered lines joined by newlines as one
code block carrying the captured hint and returns the machine to
`Normal`. -/
theorem c9_fence_transitions (st : RenderState) (line : String) :
    (st.in_code_block = false →
      (startswith "```" (rstripNL line) = true →
        processLine st line =
          ({ in_code_block := true
             code_language := trimStr (dropStr 3 (rstripNL line))
             code_buffer := [] }, [])) ∧
      (startswith "```" (rstripNL line) = false →
        (processLine st line).1.in_code_block = false)) ∧
    (st.in_code_block = true →
      startswith "```" (rstripNL line) = true →
      processLine st line =
        ({ in_code_block := false, code_language := "", code_buffer := [] },
         [DocEvent.codeBlock st.code_language (joinNL st.code_buffer)])) := by
  constructor
  · intro h0
    constructor
    · intro hf
      simp [processLine, h0, hf]
    · intro hnf
      simp only [processLine, h0, hnf]
      simp only [Bool.false_and, Bool.and_false, Bool.false_eq_true, if_false]
      split <;> exact h0
  · intro h1 hf
    simp [processLine, h1, hf]

/-- Witness for C9 at concrete inputs: an opening fence line `\x60\x60\x60py`
in the Normal state captures hint `py`; a bare fence in the InCodeBlock
state flushes the buffered line `x=1` with the captured hint. -/
theorem c9_witness :
    processLine { in_code_block := false, code_language := "", code_buffer := [] } "```py\n" =
      ({ in_code_block := true, code_language := "py", code_buffer := [] }, []) ∧
    processLine { in_code_block := true, code_language := "py", code_buffer := ["x=1"] } "```\n" =
      ({ in_code_block := false, code_language := "", code_buffer := [] },
       [DocEvent.codeBlock "py" "x=1"]) := by
  constructor
  · have h := ((c9_fence_transitions
      { in_code_block := false, code_language := "", code_buffer := [] } "```py\n").1 rfl).1
      (by decide)
    rw [h]
    decide
  · have h := (c9_fence_transitions
      { in_code_block := true, code_language := "py", code_buffer := ["x=1"] } "```\n").2 rfl
      (by decide)
    rw [h]
    decide

/-- Dropping leading newlines from a character list that ends in three
backticks keeps the backtick suffix intact. -/
theorem dropWhile_append_backticks (a : List Char) :
    List.dropWhile (fun c => c == '\n') (a ++ ['`', '`', '`']) =
      List.dropWhile (fun c => c == '\n') a ++ ['`', '`', '`'] := by
  induction a with
  | nil => decide
  | cons c a ih =>
    by_cases hc : (c == '\n') = true
    · simp [List.dropWhile_cons, hc, ih]
    · simp [List.dropWhile_cons, hc]

/-- A line built as three backticks followed by arbitrary trailing text
still has the three-backtick prefix after `rstrip("\n")`. -/
theorem startswith_backticks_rstrip (t : String) :
    startswith "```" (rstripNL ("```" ++ t)) = true := by
  unfold startswith rstripNL rstripChars
  have hdata : ("```" ++ t).data = '`' :: '`' :: '`' :: t.data := by
    rw [String.data_append]
    rfl
  rw [hdata]
  have hrev : ('`' :: '`' :: '`' :: t.data).reverse = t.data.reverse ++ ['`', '`', '`'] := by
    simp
  rw [hrev, dropWhile_append_backticks, List.reverse_append]
  show List.isPrefixOf ['`', '`', '`']
    ('`' :: '`' :: '`' :: (List.dropWhile (fun c => c == '\n') t.data.reverse).reverse) = true
  simp [List.isPrefixOf]

/-- C10: in the `InCodeBlock` state, any line made of three backticks plus
arbitrary trailing text (such as `\x60\x60\x60python`) acts as the closing
fence: the buffered lines are flushed with the previously captured hint,
and the trailing text is silently discarded — it appears neither in the
flushed code text nor as a new language hint (the state returns to
`Normal` with empty hint and buffer), so at most one block is ever
buffered. The result is entirely independent of the trailing text. -/
theorem c10_close_discards_trailing (st : RenderState) (t : String)
    (h : st.in_code_block = true) :
    processLine st ("```" ++ t) =
      ({ in_code_block := false, code_language := "", code_buffer := [] },
       [DocEvent.codeBlock st.code_language (joinNL st.code_buffer)]) := by
  have hf := startswith_backticks_rstrip t
  simp [processLine, h, hf]

/-- Witness for C10 at a concrete input: a buffered block closed by
`\x60\x60\x60python` flushes with the old hint `py` and the old buffer, and
the trailing `python` is nowhere in the result. -/
theorem c10_witness :
    processLine { in_code_block := true, code_language := "py", code_buffer := ["x=1"] }
        ("```" ++ "python") =
      ({ in_code_block := false, code_language := "", code_buffer := [] },
       [DocEvent.codeBlock "py" "x=1"]) := by
  rw [c10_close_discards_trailing
    { in_code_block := true, code_language := "py", code_buffer := ["x=1"] } "python" rfl]
  decide

/-- Running the loop over a concatenation threads the state through the
first part and concatenates the emitted events. -/
theorem runLines_append (st : RenderState) (xs ys : List String) :
    runLines st (xs ++ ys) =
      ((runLines (runLines st xs).1 ys).1,
       (runLines st xs).2 ++ (runLines (runLines st xs).1 ys).2) := by
  induction xs generalizing st with
  | nil => simp [runLines]
  | cons l ls ih =>
    simp only [List.cons_append, runLines]
    rw [List.append_eq, ih]
    simp [List.append_assoc]

/-- While inside a code block, lines without the three-backtick prefix are
only buffered: no event is emitted and the machine stays in the block. -/
theorem inblock_buffers_only (ls : List String) :
    ∀ st : RenderState, st.in_code_block = true →
      (∀ l ∈ ls, startswith "```" (rstripNL l) = false) →
      (runLines st ls).2 = [] ∧ (runLines st ls).1.in_code_block = true := by
  induction ls with
  | nil =>
    intro st h _
    exact ⟨rfl, h⟩
  | cons l ls ih =>
    intro st h hl
    have h1 : startswith "```" (rstripNL l) = false := hl l (by simp)
    have hstep : processLine st l =
        ({ st with code_buffer := st.code_buffer ++ [rstripNL l] }, []) := by
      simp [processLine, h, h1]
    simp only [runLines, hstep]
    have := ih { st with code_buffer := st.code_buffer ++ [rstripNL l] } (by simp [h])
      (fun x hx => hl x (by simp [hx]))
    simp [this.1, this.2]

/-- C6 counterexample: on input ending inside an unterminated fenced block
(opening fence, then the buffered line `x`), `convert_markdown_to_docx`
emits NO event for the block — end-of-input is reached with
`in_code_block` still true and the line `x` still sitting in the buffer,
which the code never flushes (the claim states the buffer would be flushed
as a code block). No error is raised, but the content is dropped. -/
theorem c6_counterexample :
    convert_markdown_to_docx ["```\n", "x"] = [] ∧
    (runLines initState ["```\n", "x"]).1 =
      { in_code_block := true, code_language := "", code_buffer := ["x"] } := by
  constructor
  · decide
  · decide

/-- C6 as amended: an unterminated fenced block at end-of-input is
silently discarded, not flushed: appending an opening fence and any
non-fence lines to an input that ends in the Normal state leaves the
emitted events unchanged (and processing is total, so no error is
raised). -/
theorem c6_unterminated_dropped (pre : List String) (openLine : String) (content : List String)
    (h1 : (runLines initState pre).1.in_code_block = false)
    (h2 : startswith "```" (rstripNL openLine) = true)
    (h3 : ∀ l ∈ content, startswith "```" (rstripNL l) = false) :
    convert_markdown_to_docx (pre ++ openLine :: content) = convert_markdown_to_docx pre := by
  unfold convert_markdown_to_docx
  rw [runLines_append]
  have hopen : processLine (runLines initState pre).1 openLine =
      ({ in_code_block := true
         code_language := trimStr (dropStr 3 (rstripNL openLine))
         code_buffer := [] }, []) := by
    simp [processLine, h1, h2]
  simp only [runLines, hopen]
  have hrest := inblock_buffers_only content
    { in_code_block := true
      code_language := trimStr (dropStr 3 (rstripNL openLine))
      code_buffer := [] } rfl h3
  simp [hrest.1]

/-- Witness for the amended C6 at a concrete input: a paragraph followed
by an unterminated `\x60\x60\x60py` block renders exactly like the
paragraph alone. -/
theorem c6_witness :
    convert_markdown_to_docx (["hello"] ++ "```py\n" :: ["x=1"]) =
      convert_markdown_to_docx ["hello"] :=
  c6_unterminated_dropped ["hello"] "```py\n" ["x=1"] (by decide) (by decide) (by decide)

/-- An adapter environment in which both `get_lexer_by_name` and
`guess_lexer` raise, as pygments does when no lexer matches the hint and
automatic detection finds no match either. -/
def failEnv : LexerEnv :=
  { get_lexer_by_name := fun _ => Except.error ()
    guess_lexer := fun _ => Except.error () }

/-- C7 counterexample: when the hint resolution fails and the
`guess_lexer` fallback also fails, `_highlight_code_paragraph` does NOT
degrade to a single unstyled run — the failure propagates out of the
function (the bare `except` in `md_to_word.py` lines 77-80 only guards the
first resolution attempt, and no caller catches the second), so the whole
conversion aborts rather than rendering the rest of the document. -/
theorem c7_counterexample :
    highlight_code_paragraph failEnv "x = 1" "nosuchlang" = Except.error () ∧
    highlight_code_paragraph failEnv "x = 1" "nosuchlang" ≠
      Except.ok [({ text := "x = 1", colorRGB := none } : StyledRun)] := by
  constructor
  · rfl
  · intro h
    simp [highlight_code_paragraph, resolveLexer, failEnv] at h

/-- C7 as amended: if the automatic-detection fallback fails (and the
explicit hint either is empty or also fails to resolve), the error
propagates out of `_highlight_code_paragraph`: the block is not rendered
as an unstyled run and nothing contains the failure to that block. -/
theorem c7_fallback_failure_propagates (env : LexerEnv) (code_text code_language : String)
    (hguess : env.guess_lexer code_text = Except.error ())
    (hname : code_language = "" ∨ env.get_lexer_by_name code_language = Except.error ()) :
    highlight_code_paragraph env code_text code_language = Except.error () := by
  unfold highlight_code_paragraph resolveLexer
  rcases hname with h | h
  · simp [h, hguess]
  · by_cases hl : code_language = "" <;> simp [hl, h, hguess]

/-- Witness for the amended C7 at a concrete input: with both resolution
functions failing, highlighting a block propagates the error. -/
theorem c7_witness :
    highlight_code_paragraph failEnv "y = 2" "klingon" = Except.error () :=
  c7_fallback_failure_propagates failEnv "y = 2" "klingon" rfl (Or.inr rfl)

/-- A successful resolution comes either from the by-name lookup or from
automatic detection. -/
theorem resolveLexer_ok {env : LexerEnv} {code_text code_language : String} {lx : Lexer}
    (h : resolveLexer env code_text code_language = Except.ok lx) :
    env.get_lexer_by_name code_language = Except.ok lx ∨
      env.guess_lexer code_text = Except.ok lx := by
  unfold resolveLexer at h
  split at h
  · rename_i l heq
    injection h with h2
    subst h2
    by_cases hl : code_language = ""
    · rw [if_pos hl] at heq
      exact Or.inr heq
    · rw [if_neg hl] at heq
      exact Or.inl heq
  · exact Or.inr h

/-- C8: the round-trip invariant of the tokenizer pipeline. Whenever
`_highlight_code_paragraph` succeeds, each token becomes exactly one
styled run whose text is the token value, in token order; under the
adapter contract that any lexer the environment can resolve covers the
input exactly (token texts concatenate to the input), the concatenation of
the run texts reproduces the block text exactly. -/
theorem c8_roundtrip (env : LexerEnv) (C L : String) (runs : List StyledRun)
    (hok : highlight_code_paragraph env C L = Except.ok runs)
    (hcov : ∀ lx : Lexer,
      (env.get_lexer_by_name L = Except.ok lx ∨ env.guess_lexer C = Except.ok lx) →
      concatS ((lx.get_tokens C).map Token.text) = C) :
    concatS (runs.map StyledRun.text) = C ∧
    ∃ lx : Lexer, resolveLexer env C L = Except.ok lx ∧
      runs = (lx.get_tokens C).map styleToken ∧
      runs.map StyledRun.text = (lx.get_tokens C).map Token.text := by
  unfold highlight_code_paragraph at hok
  cases hres : resolveLexer env C L with
  | error e => rw [hres] at hok; cases hok
  | ok lx =>
    rw [hres] at hok
    cases hok
    have htext : ((lx.get_tokens C).map styleToken).map StyledRun.text =
        (lx.get_tokens C).map Token.text := by
      rw [List.map_map]
      rfl
    refine ⟨?_, lx, rfl, rfl, htext⟩
    rw [htext]
    exact hcov lx (resolveLexer_ok hres)

/-- A one-token lexer covering the whole input, and an environment that
always resolves to it. -/
def wholeLexer : Lexer := { get_tokens := fun s => [{ cat := TokenCat.other, text := s }] }

/-- Environment resolving every hint and every detection to `wholeLexer`. -/
def wholeEnv : LexerEnv :=
  { get_lexer_by_name := fun _ => Except.ok wholeLexer
    guess_lexer := fun _ => Except.ok wholeLexer }

/-- Witness for C8 at a concrete input: highlighting `x = 1` through the
one-token environment yields runs whose texts concatenate back to
`x = 1`. -/
theorem c8_witness :
    concatS (([({ text := "x = 1", colorRGB := none } : StyledRun)]).map StyledRun.text) =
      "x = 1" ∧
    ∃ lx : Lexer, resolveLexer wholeEnv "x = 1" "python" = Except.ok lx ∧
      [({ text := "x = 1", colorRGB := none } : StyledRun)] =
        (lx.get_tokens "x = 1").map styleToken ∧
      ([({ text := "x = 1", colorRGB := none } : StyledRun)]).map StyledRun.text =
        (lx.get_tokens "x = 1").map Token.text :=
  c8_roundtrip wholeEnv "x = 1" "python"
    [({ text := "x = 1", colorRGB := none } : StyledRun)] rfl
    (by
      intro lx h
      have hlx : lx = wholeLexer := by
        rcases h with h | h <;> exact (Except.ok.inj h).symm
      subst hlx
      decide)
